import Mathlib

/-!
Verification of the numix-cursor-hidpi build pipeline (build.py).

The Python program is shallowly embedded: Python strings are lists of
characters, the filesystem and the external subprocesses (inkscape,
xcursorgen) are oracles passed as function arguments, and each module-level
loop of build.py becomes a recursive Lean function.  The Python builtins
used by the script (str.split, int(), the percent formatting of integers,
str.join, round) are modelled by executable Lean functions defined below.
-/

namespace Build

/-- Python strings are modelled as lists of characters. -/
abbrev PyStr := List Char

/-- Decimal digits of a natural number, least significant first, computed
with explicit fuel so that the kernel can evaluate it.  Models the digit
loop underlying the decimal formatting of the Python runtime. -/
def natDigitsAux : ℕ → ℕ → List ℕ
  | 0, _ => []
  | fuel + 1, n => if n = 0 then [] else n % 10 :: natDigitsAux fuel (n / 10)

/-- Decimal digits of a natural number, least significant first. -/
def natDigitsLE (n : ℕ) : List ℕ := natDigitsAux n n

/-- Decimal representation of a natural number, most significant digit
first.  Models the Python formatting of a nonnegative int by percent-s. -/
def natChars (n : ℕ) : PyStr :=
  if n = 0 then ['0'] else (natDigitsLE n).reverse.map Nat.digitChar

/-- Decimal representation of an integer.  Models the Python formatting of
an int by percent-s. -/
def pyReprInt (i : ℤ) : PyStr :=
  if i < 0 then '-' :: natChars i.natAbs else natChars i.natAbs

/-- One step of decimal parsing: accumulate a digit, or fail on any
non-digit character. -/
def digitFold (o : Option ℕ) (c : Char) : Option ℕ :=
  o.bind (fun acc => if c.isDigit then some (acc * 10 + (c.toNat - 48)) else none)

/-- Parse a nonempty all-digit string as a natural number. -/
def parseDigits : PyStr → Option ℕ
  | [] => none
  | c :: cs => (c :: cs).foldl digitFold (some 0)

/-- Models the Python builtin int() on a whitespace-free argument: an
optional leading minus sign followed by at least one decimal digit; any
other input raises ValueError, modelled as none. -/
def pyInt? (cs : PyStr) : Option ℤ :=
  match cs with
  | [] => none
  | c :: rest =>
    if c = '-' then (parseDigits rest).map (fun n => -(n : ℤ))
    else (parseDigits (c :: rest)).map (fun n => (n : ℤ))

/-- Round-half-to-even on rationals.  Models the Python builtin round on
the exactly representable values the script feeds it; the spec calls this
the language-default rounding of the observed runtime. -/
def roundHalfEven (q : ℚ) : ℤ :=
  let f : ℤ := ⌊q⌋
  let r : ℚ := q - (f : ℚ)
  if r < 1 / 2 then f
  else if 1 / 2 < r then f + 1
  else if Even f then f else f + 1

/-- Models scale_hotpoints from build.py: scale is the ratio of the new
size to the original size and both coordinates are rounded with the
Python builtin round. -/
def scale_hotpoints (orig_size new_size hot_x hot_y : ℤ) : ℤ × ℤ :=
  let scale : ℚ := (new_size : ℚ) / (orig_size : ℚ)
  (roundHalfEven ((hot_x : ℚ) * scale), roundHalfEven ((hot_y : ℚ) * scale))

/-- Helper for pySplit: acc holds the characters of the token currently
being scanned, in reverse order. -/
def pySplitAux : PyStr → PyStr → List PyStr
  | acc, [] => if acc = [] then [] else [acc.reverse]
  | acc, c :: cs =>
    if c.isWhitespace then
      if acc = [] then pySplitAux [] cs else acc.reverse :: pySplitAux [] cs
    else pySplitAux (c :: acc) cs

/-- Models the Python builtin str.split with no argument: split on runs of
whitespace, dropping empty tokens. -/
def pySplit (s : PyStr) : List PyStr := pySplitAux [] s

/-- Helper for pyLines: acc holds the characters of the current line in
reverse order. -/
def pyLinesAux : PyStr → PyStr → List PyStr
  | acc, [] => [acc.reverse]
  | acc, c :: cs =>
    if c = '\n' then acc.reverse :: pyLinesAux [] cs else pyLinesAux (c :: acc) cs

/-- Models iterating over the lines of a file whose content does not end
in a newline, with the line terminators stripped (str.split consumes them
anyway); an empty file yields no lines. -/
def pyLines (s : PyStr) : List PyStr := if s = [] then [] else pyLinesAux [] s

/-- Models the Python builtin str.join. -/
def pyJoin (sep : PyStr) : List PyStr → PyStr
  | [] => []
  | [x] => x
  | x :: y :: rest => x ++ sep ++ pyJoin sep (y :: rest)

/-- Exceptions raised by the embedded fragments of build.py: ValueError
from tuple unpacking or int(), and NameError from evaluating an undefined
variable, carrying the name of that variable. -/
inductive PyErr where
  | valueError : PyErr
  | nameError (var : PyStr) : PyErr
deriving DecidableEq, Repr

/-- One frame record of a cursor descriptor as produced by load_cursor in
build.py: the tuple (int(size), int(hot_x), int(hot_y), name, int(delay)). -/
structure FrameRec where
  size : ℤ
  hotX : ℤ
  hotY : ℤ
  name : PyStr
  delay : ℤ
deriving DecidableEq, Repr

/-- Models the body of the line loop of load_cursor: split the line, unpack
4 or 5 fields (any other count raises ValueError from tuple unpacking), and
convert the numeric fields with int(). -/
def parse_line (line : PyStr) : Except PyErr FrameRec :=
  match pySplit line with
  | [s, x, y, n] =>
    match pyInt? s, pyInt? x, pyInt? y with
    | some si, some xi, some yi => .ok ⟨si, xi, yi, n, 0⟩
    | _, _, _ => .error .valueError
  | [s, x, y, n, d] =>
    match pyInt? s, pyInt? x, pyInt? y, pyInt? d with
    | some si, some xi, some yi, some di => .ok ⟨si, xi, yi, n, di⟩
    | _, _, _, _ => .error .valueError
  | _ => .error .valueError

/-- Models load_cursor from build.py on the list of lines of a descriptor
file: records are accumulated in file order and the first bad line raises,
discarding everything. -/
def load_cursor : List PyStr → Except PyErr (List FrameRec)
  | [] => .ok []
  | l :: ls =>
    match parse_line l with
    | .error e => .error e
    | .ok r =>
      match load_cursor ls with
      | .error e => .error e
      | .ok rs => .ok (r :: rs)

/-- Decides whether a descriptor line is well formed: 4 or 5
whitespace-separated fields whose numeric fields all parse with int(). -/
def line_ok (line : PyStr) : Bool :=
  match pySplit line with
  | [s, x, y, _] => (pyInt? s).isSome && (pyInt? x).isSome && (pyInt? y).isSome
  | [s, x, y, _, d] =>
    (pyInt? s).isSome && (pyInt? x).isSome && (pyInt? y).isSome && (pyInt? d).isSome
  | _ => false

/-- One entry of master_cursor_list in build.py: the tuple (dpi,
scaled_size, scaled_x, scaled_y, input_icon_path, sized_icon_output_path,
delay) attached to a cursor. -/
structure ExpandedFrame where
  dpi : ℕ
  scaledSize : ℤ
  scaledX : ℤ
  scaledY : ℤ
  input : PyStr
  out : PyStr
  delay : ℤ
deriving DecidableEq, Repr

/-- One unit of rasterization work as queued in build.py: the tuple
(input_path, output_path, dpi). -/
structure RasterTask where
  input : PyStr
  out : PyStr
  dpi : ℕ
deriving DecidableEq, Repr

/-- The fixed ordered DPI table of build.py, mapping dpi to scaled pixel
size. -/
def DPI : List (ℕ × ℕ) :=
  [(90, 24), (120, 30), (160, 40), (180, 45), (200, 50), (220, 55), (240, 60), (320, 80)]

/-- Models ICON_OUTPUT.joinpath applied to the percent-formatted file name
name_dpi.png. -/
def icon_output_path (name : PyStr) (dpi : ℕ) : PyStr :=
  "build/icons/".data ++ name ++ "_".data ++ natChars dpi ++ ".png".data

/-- Models CURSOR_OUTPUT.joinpath(cursor.name). -/
def cursor_output_path (cursorName : PyStr) : PyStr :=
  "build/cursor/".data ++ cursorName

/-- Models the inner statements of the expansion loop for one frame at one
dpi.  When the icon name has no matching svg, build.py raises an exception
whose message interpolates the variable icon; that variable is undefined
there (the frame name is bound to name), so the Python runtime raises
NameError for the variable icon before the intended message is built. -/
def expand_one (svgs : PyStr → Option PyStr) (dpi scaled_size : ℕ) (f : FrameRec) :
    Except PyErr ExpandedFrame :=
  match svgs f.name with
  | none => .error (.nameError "icon".data)
  | some p =>
    let o := icon_output_path f.name dpi
    let sxy := scale_hotpoints f.size (scaled_size : ℤ) f.hotX f.hotY
    .ok ⟨dpi, (scaled_size : ℤ), sxy.1, sxy.2, p, o, f.delay⟩

/-- Models the innermost loop of the expansion: all frames of one cursor at
one dpi, in frame order. -/
def expand_frames (svgs : PyStr → Option PyStr) (dpi scaled_size : ℕ) :
    List FrameRec → Except PyErr (List ExpandedFrame)
  | [] => .ok []
  | f :: fs =>
    match expand_one svgs dpi scaled_size f with
    | .error e => .error e
    | .ok x =>
      match expand_frames svgs dpi scaled_size fs with
      | .error e => .error e
      | .ok xs => .ok (x :: xs)

/-- Models the middle loop of the expansion: one cursor across the whole
DPI table, dpi-major as in build.py. -/
def expand_dpis (svgs : PyStr → Option PyStr) (icons : List FrameRec) :
    List (ℕ × ℕ) → Except PyErr (List ExpandedFrame)
  | [] => .ok []
  | (dpi, ss) :: rest =>
    match expand_frames svgs dpi ss icons with
    | .error e => .error e
    | .ok xs =>
      match expand_dpis svgs icons rest with
      | .error e => .error e
      | .ok ys => .ok (xs ++ ys)

/-- Models the loop building master_cursor_list in build.py: every cursor
is expanded across the DPI table and keyed by its output descriptor path. -/
def master_cursor_list (svgs : PyStr → Option PyStr) :
    List (PyStr × List FrameRec) → Except PyErr (List (PyStr × List ExpandedFrame))
  | [] => .ok []
  | (cname, icons) :: rest =>
    match expand_dpis svgs icons DPI with
    | .error e => .error e
    | .ok fs =>
      match master_cursor_list svgs rest with
      | .error e => .error e
      | .ok ms => .ok ((cursor_output_path cname, fs) :: ms)

/-- Models build_cursor_line from build.py: percent-format the fields
scaled_size, scaled_x, scaled_y and the output bitmap path, appending the
delay field exactly when the delay is truthy, that is nonzero. -/
def build_cursor_line (f : ExpandedFrame) : PyStr :=
  let line := pyReprInt f.scaledSize ++ " ".data ++ pyReprInt f.scaledX ++ " ".data ++
    pyReprInt f.scaledY ++ " ".data ++ f.out
  if f.delay ≠ 0 then line ++ " ".data ++ pyReprInt f.delay else line

/-- Models the cursor-file writing loop of build.py for one cursor: the
serialized frame lines joined by newlines, with no header or footer. -/
def write_cursor_file (fs : List ExpandedFrame) : PyStr :=
  pyJoin "\n".data (fs.map build_cursor_line)

/-- Models the loop building the tasks queue in build.py: one task per
expanded frame whose output path does not yet exist on disk, in traversal
order; onDisk is the existence oracle for output paths. -/
def build_task_list (master : List (PyStr × List ExpandedFrame)) (onDisk : PyStr → Bool) :
    List RasterTask :=
  match master with
  | [] => []
  | (_, icons) :: rest =>
    icons.filterMap (fun f => if onDisk f.out then none else some ⟨f.input, f.out, f.dpi⟩)
      ++ build_task_list rest onDisk

/-- One recorded rasterization failure, as the spec demands them: icon
path, dpi and a reason.  The embedded worker can never produce one. -/
structure ConvFailure where
  iconPath : PyStr
  dpi : ℕ
  reason : PyStr
deriving DecidableEq, Repr

/-- Models one worker executing the converter loop of build.py against the
portion of the queue it would drain alone: exitCode gives the exit status
of the external rasterizer for each task.  On a nonzero exit the code
raises inside its own try block and the except clause breaks out of the
loop, so the worker stops, the rest of the queue is left behind, and the
error-reporting statement after the raise is unreachable; hence no failure
is ever recorded.  Returns the unprocessed remainder of the queue and the
recorded failures. -/
def converter_run : List RasterTask → (RasterTask → ℤ) → List RasterTask × List ConvFailure
  | [], _ => ([], [])
  | t :: rest, exitCode =>
    if exitCode t ≠ 0 then (rest, []) else converter_run rest exitCode

/-- Models PosixPath.stem for ordinary paths: the part of the final
component before its last dot, the whole component when it has no dot. -/
def stem (p : PyStr) : PyStr :=
  let b := (p.reverse.takeWhile (fun c => c ≠ '/')).reverse
  if '.' ∈ b then ((b.reverse.dropWhile (fun c => c ≠ '.')).drop 1).reverse else b

/-- Models the theme-compilation loop of build.py: xcursorgen is invoked
for every cursor of master_cursor_list without consulting any record of
raster failures; compilerExit gives the exit status of xcursorgen per
descriptor path.  Returns the list of descriptor paths passed to the
compiler and built_cursors, the stem-keyed map of successfully compiled
outputs. -/
def build_theme (master : List (PyStr × List ExpandedFrame)) (compilerExit : PyStr → ℤ) :
    List PyStr × List (PyStr × PyStr) :=
  match master with
  | [] => ([], [])
  | (c, _) :: rest =>
    let r := build_theme rest compilerExit
    if compilerExit c = 0 then
      (c :: r.1, (stem c, "dist/Numix-HIDPI/cursors/".data ++ stem c) :: r.2)
    else (c :: r.1, r.2)

/-- Holds when some raster task of the cursor fails under the given
rasterizer exit oracle. -/
def cursor_has_failed_task (icons : List ExpandedFrame) (rasterExit : RasterTask → ℤ) : Prop :=
  ∃ f ∈ icons, rasterExit ⟨f.input, f.out, f.dpi⟩ ≠ 0

/-- Models one step of the alias-grouping loop: defaultdict(list) keyed by
cursor name, appending the alias, with first-insertion key order. -/
def add_alias (m : List (PyStr × List PyStr)) (c a : PyStr) : List (PyStr × List PyStr) :=
  match m with
  | [] => [(c, [a])]
  | (c0, as) :: rest =>
    if c0 = c then (c0, as ++ [a]) :: rest else (c0, as) :: add_alias rest c a

/-- Models the loop building cursor_aliases in build.py from the parsed
(cursor, alias) pairs of the aliases file. -/
def group_aliases (pairs : List (PyStr × PyStr)) : List (PyStr × List PyStr) :=
  pairs.foldl (fun m p => add_alias m p.1 p.2) []

/-- Models the symlink loop of build.py: a cursor absent from
built_cursors is reported (the err call) and skipped with continue; for a
built cursor every alias is symlinked to the stem of the stored output
path.  Returns the reported unbuilt cursor names and the created links as
(alias, target) pairs. -/
def build_links (m : List (PyStr × List PyStr)) (built : PyStr → Option PyStr) :
    List PyStr × List (PyStr × PyStr) :=
  match m with
  | [] => ([], [])
  | (c, as) :: rest =>
    let r := build_links rest built
    match built c with
    | none => (c :: r.1, r.2)
    | some p => (r.1, as.map (fun a => (a, stem p)) ++ r.2)

/-- State of the conversion phase of build.py.  The 8 workers are
indistinguishable, so the state counts how many sit in each phase of
converter(): before sem.acquire (waiting), inside the conversion loop
(working), and past sem.release (done).  sem is the counting semaphore
created with value 8, mainAcq counts the acquires performed by the main
thread after starting the workers, and compiled records whether the main
thread has moved on to theme compilation. -/
structure PoolState where
  sem : ℕ
  waiting : ℕ
  working : ℕ
  done : ℕ
  mainAcq : ℕ
  compiled : Bool
deriving DecidableEq, Repr

/-- Initial pool state: Semaphore(8) fresh, 8 workers started and not yet
scheduled, the main thread before its acquire loop. -/
def initPool : PoolState := ⟨8, 8, 0, 0, 0, false⟩

/-- Interleaving semantics of the synchronization operations of the
conversion phase.  The sleep(1) calls provide no synchronization
guarantee, so with strict = false they are dropped and any interleaving of
the semaphore operations is allowed; with strict = true the main thread
only starts acquiring once every worker has acquired, which is what the
startup sleeps arrange in practice without guaranteeing it. -/
inductive PoolStep : Bool → PoolState → PoolState → Prop where
  | wAcquire {b : Bool} {s : PoolState} (hw : 0 < s.waiting) (hs : 0 < s.sem) :
      PoolStep b s ⟨s.sem - 1, s.waiting - 1, s.working + 1, s.done, s.mainAcq, s.compiled⟩
  | wFinish {b : Bool} {s : PoolState} (hw : 0 < s.working) :
      PoolStep b s ⟨s.sem + 1, s.waiting, s.working - 1, s.done + 1, s.mainAcq, s.compiled⟩
  | mAcquire {b : Bool} {s : PoolState} (hm : s.mainAcq < 8) (hs : 0 < s.sem)
      (hc : s.compiled = false) (hsync : b = true → s.waiting = 0) :
      PoolStep b s ⟨s.sem - 1, s.waiting, s.working, s.done, s.mainAcq + 1, s.compiled⟩
  | mCompile {b : Bool} {s : PoolState} (hm : s.mainAcq = 8) (hc : s.compiled = false) :
      PoolStep b s ⟨s.sem, s.waiting, s.working, s.done, s.mainAcq, true⟩

/-- Reachability from the initial pool state under the chosen semantics. -/
inductive PoolReach (b : Bool) : PoolState → Prop where
  | init : PoolReach b initPool
  | step {s t : PoolState} : PoolReach b s → PoolStep b s t → PoolReach b t

/-- Invariant of the pool semantics; the clauses guarded by b hold only
for the sleep-respecting semantics. -/
def poolInv (b : Bool) (s : PoolState) : Prop :=
  s.waiting + s.working + s.done = 8 ∧
  s.sem + s.working + s.mainAcq = 8 ∧
  s.mainAcq ≤ 8 ∧
  (s.compiled = true → s.mainAcq = 8) ∧
  (b = true → 0 < s.mainAcq → s.waiting = 0)

/-- An expanded frame as the expansion produces it for icon left_ptr at
dpi 90, shared below by two example cursors. -/
def frameShared : ExpandedFrame :=
  ⟨90, 24, 2, 2, "src/svg/left_ptr.svg".data, "build/icons/left_ptr_90.png".data, 0⟩

/-- Two cursors whose descriptors reference the same icon name at the same
dpi, hence the same output bitmap path. -/
def masterC1 : List (PyStr × List ExpandedFrame) :=
  [("build/cursor/left_ptr.cursor".data, [frameShared]),
   ("build/cursor/hand1.cursor".data, [frameShared])]

/-- Example rasterization task for icon left_ptr at dpi 90. -/
def taskA : RasterTask :=
  ⟨"src/svg/left_ptr.svg".data, "build/icons/left_ptr_90.png".data, 90⟩

/-- Example rasterization task for icon hand1 at dpi 90. -/
def taskB : RasterTask :=
  ⟨"src/svg/hand1.svg".data, "build/icons/hand1_90.png".data, 90⟩

/-- Rasterizer oracle that fails exactly on taskA. -/
def exitFailFirst : RasterTask → ℤ := fun t => if t = taskA then 1 else 0

/-- Expanded frame of the example cursor bad, whose rasterization fails
under rasterExitC3. -/
def frameBad : ExpandedFrame :=
  ⟨90, 24, 2, 2, "src/svg/bad.svg".data, "build/icons/bad_90.png".data, 0⟩

/-- Expanded frame of the example cursor good. -/
def frameGood : ExpandedFrame :=
  ⟨90, 24, 2, 2, "src/svg/good.svg".data, "build/icons/good_90.png".data, 0⟩

/-- Master cursor list with one cursor whose only raster task fails and
one healthy cursor. -/
def masterC3 : List (PyStr × List ExpandedFrame) :=
  [("build/cursor/bad.cursor".data, [frameBad]),
   ("build/cursor/good.cursor".data, [frameGood])]

/-- Rasterizer oracle failing exactly on the task of frameBad. -/
def rasterExitC3 : RasterTask → ℤ := fun t => if t.out = frameBad.out then 1 else 0

/-- Icon table with no discovered svgs. -/
def svgsNone : PyStr → Option PyStr := fun _ => none

/-- Icon table resolving only the icon named foo. -/
def svgsFoo : PyStr → Option PyStr :=
  fun n => if n = "foo".data then some "src/svg/foo.svg".data else none

/-- Descriptor frame referencing icon foo. -/
def fooFrame : FrameRec := ⟨24, 2, 2, "foo".data, 0⟩

/-- Descriptor frame referencing icon bar. -/
def barFrame : FrameRec := ⟨24, 2, 2, "bar".data, 0⟩

/-- Compiler oracle under which exactly the cursor good fails to compile. -/
def exitGoodFails : PyStr → ℤ :=
  fun c => if c = "build/cursor/good.cursor".data then 1 else 0

/-- Parsed alias-file pairs: one alias of a built cursor and one alias of
a cursor that never got built. -/
def pairs9 : List (PyStr × PyStr) :=
  [("left_ptr".data, "arrow".data), ("missing".data, "link2".data)]

/-- Built-cursor lookup with only left_ptr compiled. -/
def built9 : PyStr → Option PyStr :=
  fun c =>
    if c = "left_ptr".data then some "dist/Numix-HIDPI/cursors/left_ptr".data else none

/-- An expanded frame with a nonzero delay, as an animated cursor frame
would carry. -/
def frameDelay : ExpandedFrame :=
  ⟨120, 30, 3, 3, "src/svg/left_ptr.svg".data, "build/icons/left_ptr_120.png".data, 50⟩

/-- A two-frame cursor for the serialization round trip: one frame without
and one with a delay field. -/
def framesW : List ExpandedFrame := [frameShared, frameDelay]

/-- A well-formed descriptor: one 4-field line and one 5-field line. -/
def linesGood : List PyStr := ["24 2 2 left_ptr".data, "24 2 2 left_ptr 50".data]

/-- A malformed descriptor: a line with 3 fields. -/
def linesBad : List PyStr := ["24 2 2".data]

end Build

namespace Build

/-- C5: for every frame and resolution target the scaled hotspot equals
round-half-to-even of hot times the ratio of the scaled size to the base
size; in particular base size 24 with hotspot (2, 2) scales to (4, 4) at
target size 48 and to (2, 2) at target size 30, the latter because
round-half-to-even sends 5/2 to 2. -/
theorem C5_hotspot_scaling :
    (∀ base new hx hy : ℤ, scale_hotpoints base new hx hy =
      (roundHalfEven ((hx : ℚ) * ((new : ℚ) / (base : ℚ))),
       roundHalfEven ((hy : ℚ) * ((new : ℚ) / (base : ℚ))))) ∧
    scale_hotpoints 24 48 2 2 = (4, 4) ∧
    scale_hotpoints 24 30 2 2 = (2, 2) ∧
    roundHalfEven (5 / 2) = 2 := by
  refine ⟨fun base new hx hy => rfl, ?_, ?_, ?_⟩ <;>
    · simp only [scale_hotpoints, roundHalfEven]
      norm_num

end Build

namespace Build

/-- Every task the scheduling loop emits has an output path the existence
oracle reports as absent. -/
theorem build_task_list_not_onDisk (master : List (PyStr × List ExpandedFrame))
    (onDisk : PyStr → Bool) :
    ∀ t ∈ build_task_list master onDisk, onDisk t.out = false := by
  induction master with
  | nil => intro t ht; cases ht
  | cons ci rest ih =>
    intro t ht
    obtain ⟨c, icons⟩ := ci
    simp only [build_task_list, List.mem_append] at ht
    rcases ht with h | h
    · obtain ⟨f, _, hf⟩ := List.mem_filterMap.mp h
      by_cases hd : onDisk f.out
      · simp [hd] at hf
      · simp only [hd, if_neg, Bool.false_eq_true, not_false_eq_true, if_false,
          Option.some.injEq] at hf
        cases hf
        simpa using hd
    · exact ih t h

/-- Per-cursor counting: the tasks a cursor contributes with a given
output path are exactly its frames with that output path and no existing
output. -/
theorem filterMap_task_count (icons : List ExpandedFrame) (onDisk : PyStr → Bool) (p : PyStr) :
    ((icons.filterMap
        (fun f => if onDisk f.out then none else some (⟨f.input, f.out, f.dpi⟩ : RasterTask))).filter
      (fun t => t.out == p)).length =
    (icons.filter (fun f => f.out == p && !onDisk f.out)).length := by
  induction icons with
  | nil => rfl
  | cons f fs ih =>
    by_cases hd : onDisk f.out
    · simp only [List.filterMap_cons, hd, if_true, List.filter_cons, Bool.and_eq_true,
        Bool.not_eq_true']
      simp [hd, ih]
    · simp only [List.filterMap_cons, hd, if_false, Bool.false_eq_true, not_false_eq_true]
      by_cases hp : f.out == p
      · simp [List.filter_cons, hp, hd, ih]
      · simp [List.filter_cons, hp, hd, ih]

/-- C1, amended: the scheduled task collection contains one task per frame
occurrence whose output path is absent from disk: for every output path,
the number of scheduled tasks with that path equals the number of frame
occurrences carrying it with no existing output, so frames whose output
exists contribute no task, and no deduplication happens, two cursors
referencing the same icon at the same dpi contributing one task each. -/
theorem C1_tasks_amended (master : List (PyStr × List ExpandedFrame))
    (onDisk : PyStr → Bool) (p : PyStr) :
    ((build_task_list master onDisk).filter (fun t => t.out == p)).length =
      (((master.map Prod.snd).flatten).filter (fun f => f.out == p && !onDisk f.out)).length ∧
    (onDisk p = true → (build_task_list master onDisk).filter (fun t => t.out == p) = []) := by
  constructor
  · induction master with
    | nil => rfl
    | cons ci rest ih =>
      obtain ⟨c, icons⟩ := ci
      simp only [build_task_list, List.map_cons, List.flatten_cons, List.filter_append,
        List.length_append, ih, filterMap_task_count]
  · intro hp
    rw [List.filter_eq_nil_iff]
    intro t ht
    have hnd := build_task_list_not_onDisk master onDisk t ht
    intro hout
    rw [beq_iff_eq] at hout
    rw [hout, hp] at hnd
    cases hnd

/-- C1 witness for the amended theorem: with every output already on disk
no task at all is scheduled for the shared path, and the counting equation
holds at the concrete two-cursor input. -/
theorem C1_tasks_amended_witness :
    ((build_task_list masterC1 (fun _ => true)).filter
        (fun t => t.out == frameShared.out)).length =
      (((masterC1.map Prod.snd).flatten).filter
        (fun f => f.out == frameShared.out && !(fun _ => true) f.out)).length ∧
    (build_task_list masterC1 (fun _ => true)).filter (fun t => t.out == frameShared.out) = [] :=
  ⟨(C1_tasks_amended masterC1 (fun _ => true) frameShared.out).1,
   (C1_tasks_amended masterC1 (fun _ => true) frameShared.out).2 rfl⟩

/-- C1 counterexample: two cursors referencing the same icon at the same
dpi, with no outputs on disk, contribute two tasks for that output path,
not exactly one as the claim states. -/
theorem C1_counterexample :
    ((build_task_list masterC1 (fun _ => false)).filter
        (fun t => t.out == frameShared.out)).length = 2 ∧
    ¬ ((build_task_list masterC1 (fun _ => false)).filter
        (fun t => t.out == frameShared.out)).length = 1 := by
  decide

/-- C2: the worker loop never records a per-task failure, and on the first
nonzero rasterizer exit it stops instead of continuing with the queued
remainder: with two queued tasks of which the first fails, the worker
returns leaving the second task unexecuted and the failure list empty. -/
theorem C2_worker_failure :
    converter_run [taskA, taskB] exitFailFirst = ([taskB], []) ∧
    ∀ (queue : List RasterTask) (exitCode : RasterTask → ℤ),
      (converter_run queue exitCode).2 = [] := by
  refine ⟨by decide, ?_⟩
  intro queue exitCode
  induction queue with
  | nil => rfl
  | cons t rest ih =>
    by_cases h : exitCode t ≠ 0 <;> simp [converter_run, h, ih]

/-- Every name in built_cursors is the stem of some key of the master
list. -/
theorem build_theme_names_sub (master : List (PyStr × List ExpandedFrame))
    (compilerExit : PyStr → ℤ) :
    ∀ x ∈ (build_theme master compilerExit).2.map Prod.fst,
      x ∈ master.map (fun ci => stem ci.1) := by
  induction master with
  | nil => intro x hx; cases hx
  | cons ci rest ih =>
    obtain ⟨c, icons⟩ := ci
    intro x hx
    simp only [build_theme] at hx
    by_cases he : compilerExit c = 0
    · simp only [he, if_true] at hx
      simp only [List.map_cons, List.mem_cons] at hx ⊢
      rcases hx with h | h
      · exact Or.inl h
      · exact Or.inr (ih x h)
    · simp only [he, if_false] at hx
      simp only [List.map_cons, List.mem_cons]
      exact Or.inr (ih x hx)

/-- C3, amended: every cursor of the master list is passed to the theme
compiler, raster failures notwithstanding; a cursor lands in the final
compiled set exactly when its own compiler invocation exits zero (the
exclusion direction assuming the cursor stems are distinct, as distinct
descriptor names make them). -/
theorem C3_compile_amended (master : List (PyStr × List ExpandedFrame))
    (compilerExit : PyStr → ℤ) :
    (build_theme master compilerExit).1 = master.map Prod.fst ∧
    ∀ c icons, (c, icons) ∈ master →
      (compilerExit c = 0 → stem c ∈ (build_theme master compilerExit).2.map Prod.fst) ∧
      ((master.map (fun ci => stem ci.1)).Nodup → compilerExit c ≠ 0 →
        stem c ∉ (build_theme master compilerExit).2.map Prod.fst) := by
  induction master with
  | nil => exact ⟨rfl, fun c icons h => absurd h (List.not_mem_nil _)⟩
  | cons ci rest ih =>
    obtain ⟨c0, icons0⟩ := ci
    constructor
    · by_cases he : compilerExit c0 = 0 <;>
        simp [build_theme, he, ih.1]
    · intro c icons hmem
      rcases List.mem_cons.mp hmem with hhead | htail
      · cases hhead
        constructor
        · intro he
          simp [build_theme, he]
        · intro hnd hne
          simp only [build_theme, hne, if_false]
          intro hmm
          have hsub := build_theme_names_sub rest compilerExit (stem c0) hmm
          simp only [List.map_cons, List.nodup_cons] at hnd
          exact hnd.1 hsub
      · constructor
        · intro he
          have hin := ((ih.2 c icons htail).1 he)
          by_cases h0 : compilerExit c0 = 0 <;>
            simp [build_theme, h0, hin]
        · intro hnd hne
          simp only [List.map_cons, List.nodup_cons] at hnd
          have hnotin := (ih.2 c icons htail).2 hnd.2 hne
          by_cases h0 : compilerExit c0 = 0
          · simp only [build_theme, h0, if_true, List.map_cons, List.mem_cons]
            intro hmm
            rcases hmm with h | h
            · exact hnd.1 (h ▸ List.mem_map_of_mem (fun ci => stem ci.1) htail)
            · exact hnotin h
          · simp only [build_theme, h0, if_false]
            exact hnotin

/-- C3 witness for the amended theorem: under a compiler oracle failing
exactly on the cursor good, the cursor bad is in the compiled set and the
cursor good is not, and every cursor was invoked. -/
theorem C3_compile_amended_witness :
    (build_theme masterC3 exitGoodFails).1 = masterC3.map Prod.fst ∧
    stem "build/cursor/bad.cursor".data ∈
      (build_theme masterC3 exitGoodFails).2.map Prod.fst ∧
    stem "build/cursor/good.cursor".data ∉
      (build_theme masterC3 exitGoodFails).2.map Prod.fst :=
  ⟨(C3_compile_amended masterC3 exitGoodFails).1,
   ((C3_compile_amended masterC3 exitGoodFails).2 "build/cursor/bad.cursor".data [frameBad]
      (by decide)).1 (by decide),
   ((C3_compile_amended masterC3 exitGoodFails).2 "build/cursor/good.cursor".data [frameGood]
      (by decide)).2 (by decide) (by decide)⟩

/-- C3 counterexample: the cursor bad has a failed raster task under the
oracle rasterExitC3, yet its descriptor is still passed to the theme
compiler, and with the compiler exiting zero it even lands in the final
compiled set. -/
theorem C3_counterexample :
    cursor_has_failed_task [frameBad] rasterExitC3 ∧
    "build/cursor/bad.cursor".data ∈ (build_theme masterC3 (fun _ => 0)).1 ∧
    "bad".data ∈ (build_theme masterC3 (fun _ => 0)).2.map Prod.fst := by
  refine ⟨⟨frameBad, by decide, by decide⟩, by decide, by decide⟩

/-- C4: a frame whose icon name has no discovered svg aborts the whole
expansion, but with a NameError for the undefined variable icon rather
than a message naming the unresolvable icon: the error is one constant
value, identical for the missing icons foo and bar, and carries the
variable name icon, not the icon name. -/
theorem C4_missing_icon :
    master_cursor_list svgsNone [("left_ptr.cursor".data, [fooFrame])]
        = .error (.nameError "icon".data) ∧
    master_cursor_list svgsNone [("left_ptr.cursor".data, [barFrame])]
        = .error (.nameError "icon".data) ∧
    master_cursor_list svgsFoo [("a.cursor".data, [fooFrame, barFrame])]
        = .error (.nameError "icon".data) ∧
    PyErr.nameError "icon".data ≠ PyErr.nameError "foo".data := by
  refine ⟨rfl, rfl, rfl, by decide⟩

end Build

namespace Build

/-- Every reachable pool state satisfies the pool invariant. -/
theorem poolInv_of_reach {b : Bool} {s : PoolState} (h : PoolReach b s) : poolInv b s := by
  induction h with
  | init =>
    exact ⟨rfl, rfl, by decide, by decide, fun _ hm => absurd hm (by decide)⟩
  | step _ hstep ih =>
    obtain ⟨i1, i2, i3, i4, i5⟩ := ih
    cases hstep with
    | wAcquire hw hs =>
      dsimp only [poolInv] at *
      refine ⟨by omega, by omega, by omega, fun hc => i4 hc, ?_⟩
      intro hb hm
      have h5 := i5 hb hm
      omega
    | wFinish hw =>
      dsimp only [poolInv] at *
      exact ⟨by omega, by omega, by omega, fun hc => i4 hc, fun hb hm => i5 hb hm⟩
    | mAcquire hm hs hc hsync =>
      dsimp only [poolInv] at *
      refine ⟨by omega, by omega, by omega, ?_, ?_⟩
      · intro hcc
        rw [hc] at hcc
        cases hcc
      · intro hb _
        exact hsync hb
    | mCompile hm hc =>
      dsimp only [poolInv] at *
      exact ⟨by omega, by omega, by omega, fun _ => hm, fun hb hmm => i5 hb hmm⟩

/-- C8, amended: at most 8 rasterizations are ever in flight under any
interleaving, because each of the 8 workers runs its subprocess
synchronously; and under the sleep-respecting schedules, where every
worker acquires the gate before the main thread starts acquiring,
compilation begins only after all 8 workers have completed.  Dropping the
schedule assumption the second half fails, see the counterexample. -/
theorem C8_pool_amended (b : Bool) (s : PoolState) (h : PoolReach b s) :
    s.working ≤ 8 ∧
    (b = true → s.compiled = true → s.waiting = 0 ∧ s.working = 0 ∧ s.done = 8) := by
  obtain ⟨i1, i2, i3, i4, i5⟩ := poolInv_of_reach h
  constructor
  · omega
  · intro hb hc
    have h8 := i4 hc
    have hw := i5 hb (by omega)
    exact ⟨hw, by omega, by omega⟩

/-- The intended schedule is realizable in the strict semantics: all 8
workers acquire, convert and release, then the main thread drains the
semaphore and compiles. -/
theorem reach_full_strict : PoolReach true ⟨0, 0, 0, 8, 8, true⟩ := by
  have h0 : PoolReach true initPool := .init
  have h1 : PoolReach true ⟨7, 7, 1, 0, 0, false⟩ := h0.step (.wAcquire (by decide) (by decide))
  have h2 : PoolReach true ⟨6, 6, 2, 0, 0, false⟩ := h1.step (.wAcquire (by decide) (by decide))
  have h3 : PoolReach true ⟨5, 5, 3, 0, 0, false⟩ := h2.step (.wAcquire (by decide) (by decide))
  have h4 : PoolReach true ⟨4, 4, 4, 0, 0, false⟩ := h3.step (.wAcquire (by decide) (by decide))
  have h5 : PoolReach true ⟨3, 3, 5, 0, 0, false⟩ := h4.step (.wAcquire (by decide) (by decide))
  have h6 : PoolReach true ⟨2, 2, 6, 0, 0, false⟩ := h5.step (.wAcquire (by decide) (by decide))
  have h7 : PoolReach true ⟨1, 1, 7, 0, 0, false⟩ := h6.step (.wAcquire (by decide) (by decide))
  have h8 : PoolReach true ⟨0, 0, 8, 0, 0, false⟩ := h7.step (.wAcquire (by decide) (by decide))
  have g1 : PoolReach true ⟨1, 0, 7, 1, 0, false⟩ := h8.step (.wFinish (by decide))
  have g2 : PoolReach true ⟨2, 0, 6, 2, 0, false⟩ := g1.step (.wFinish (by decide))
  have g3 : PoolReach true ⟨3, 0, 5, 3, 0, false⟩ := g2.step (.wFinish (by decide))
  have g4 : PoolReach true ⟨4, 0, 4, 4, 0, false⟩ := g3.step (.wFinish (by decide))
  have g5 : PoolReach true ⟨5, 0, 3, 5, 0, false⟩ := g4.step (.wFinish (by decide))
  have g6 : PoolReach true ⟨6, 0, 2, 6, 0, false⟩ := g5.step (.wFinish (by decide))
  have g7 : PoolReach true ⟨7, 0, 1, 7, 0, false⟩ := g6.step (.wFinish (by decide))
  have g8 : PoolReach true ⟨8, 0, 0, 8, 0, false⟩ := g7.step (.wFinish (by decide))
  have m1 : PoolReach true ⟨7, 0, 0, 8, 1, false⟩ :=
    g8.step (.mAcquire (by decide) (by decide) rfl (fun _ => rfl))
  have m2 : PoolReach true ⟨6, 0, 0, 8, 2, false⟩ :=
    m1.step (.mAcquire (by decide) (by decide) rfl (fun _ => rfl))
  have m3 : PoolReach true ⟨5, 0, 0, 8, 3, false⟩ :=
    m2.step (.mAcquire (by decide) (by decide) rfl (fun _ => rfl))
  have m4 : PoolReach true ⟨4, 0, 0, 8, 4, false⟩ :=
    m3.step (.mAcquire (by decide) (by decide) rfl (fun _ => rfl))
  have m5 : PoolReach true ⟨3, 0, 0, 8, 5, false⟩ :=
    m4.step (.mAcquire (by decide) (by decide) rfl (fun _ => rfl))
  have m6 : PoolReach true ⟨2, 0, 0, 8, 6, false⟩ :=
    m5.step (.mAcquire (by decide) (by decide) rfl (fun _ => rfl))
  have m7 : PoolReach true ⟨1, 0, 0, 8, 7, false⟩ :=
    m6.step (.mAcquire (by decide) (by decide) rfl (fun _ => rfl))
  have m8 : PoolReach true ⟨0, 0, 0, 8, 8, false⟩ :=
    m7.step (.mAcquire (by decide) (by decide) rfl (fun _ => rfl))
  exact m8.step (.mCompile rfl rfl)

/-- C8 witness for the amended theorem, at the strict-schedule run that
acquires, converts, releases and then compiles: the in-flight bound holds
and compilation finds all workers done. -/
theorem C8_pool_amended_witness :
    (⟨0, 0, 0, 8, 8, true⟩ : PoolState).working ≤ 8 ∧
    ((⟨0, 0, 0, 8, 8, true⟩ : PoolState).waiting = 0 ∧
     (⟨0, 0, 0, 8, 8, true⟩ : PoolState).working = 0 ∧
     (⟨0, 0, 0, 8, 8, true⟩ : PoolState).done = 8) :=
  ⟨(C8_pool_amended true _ reach_full_strict).1,
   (C8_pool_amended true _ reach_full_strict).2 rfl rfl⟩

/-- C8 counterexample: without the timing assumption the sleeps try to
arrange, the main thread can drain the 8 fresh semaphore permits before
any worker is scheduled and proceed to compilation while all 8 workers
still wait: a reachable state is compiled with no worker done. -/
theorem C8_counterexample :
    PoolReach false ⟨0, 8, 0, 0, 8, true⟩ ∧
    (⟨0, 8, 0, 0, 8, true⟩ : PoolState).compiled = true ∧
    ¬ (⟨0, 8, 0, 0, 8, true⟩ : PoolState).done = 8 := by
  refine ⟨?_, rfl, by decide⟩
  have h0 : PoolReach false initPool := .init
  have h1 : PoolReach false ⟨7, 8, 0, 0, 1, false⟩ :=
    h0.step (.mAcquire (by decide) (by decide) rfl (by simp))
  have h2 : PoolReach false ⟨6, 8, 0, 0, 2, false⟩ :=
    h1.step (.mAcquire (by decide) (by decide) rfl (by simp))
  have h3 : PoolReach false ⟨5, 8, 0, 0, 3, false⟩ :=
    h2.step (.mAcquire (by decide) (by decide) rfl (by simp))
  have h4 : PoolReach false ⟨4, 8, 0, 0, 4, false⟩ :=
    h3.step (.mAcquire (by decide) (by decide) rfl (by simp))
  have h5 : PoolReach false ⟨3, 8, 0, 0, 5, false⟩ :=
    h4.step (.mAcquire (by decide) (by decide) rfl (by simp))
  have h6 : PoolReach false ⟨2, 8, 0, 0, 6, false⟩ :=
    h5.step (.mAcquire (by decide) (by decide) rfl (by simp))
  have h7 : PoolReach false ⟨1, 8, 0, 0, 7, false⟩ :=
    h6.step (.mAcquire (by decide) (by decide) rfl (by simp))
  have h8 : PoolReach false ⟨0, 8, 0, 0, 8, false⟩ :=
    h7.step (.mAcquire (by decide) (by decide) rfl (by simp))
  exact h8.step (.mCompile rfl rfl)

end Build

namespace Build

/-- Membership through one add_alias step: an alias is in the updated map
iff it is the added pair or was already present. -/
theorem mem_add_alias (m : List (PyStr × List PyStr)) (c0 a0 c a : PyStr) :
    (∃ as, (c, as) ∈ add_alias m c0 a0 ∧ a ∈ as) ↔
      ((c = c0 ∧ a = a0) ∨ ∃ as, (c, as) ∈ m ∧ a ∈ as) := by
  induction m with
  | nil =>
    constructor
    · rintro ⟨as, hmem, ha⟩
      simp only [add_alias, List.mem_singleton, Prod.mk.injEq] at hmem
      obtain ⟨rfl, rfl⟩ := hmem
      simp only [List.mem_singleton] at ha
      exact Or.inl ⟨rfl, ha⟩
    · rintro (⟨rfl, rfl⟩ | ⟨as, hmem, ha⟩)
      · exact ⟨[a], by simp [add_alias]⟩
      · cases hmem
  | cons hd rest ih =>
    obtain ⟨c1, as1⟩ := hd
    by_cases h : c1 = c0
    · subst h
      have hadd : add_alias ((c1, as1) :: rest) c1 a0 = (c1, as1 ++ [a0]) :: rest := by
        simp [add_alias]
      rw [hadd]
      simp only [List.mem_cons, Prod.mk.injEq]
      constructor
      · rintro ⟨as, hmem | hmem, ha⟩
        · obtain ⟨rfl, rfl⟩ := hmem
          rcases List.mem_append.mp ha with h1 | h1
          · exact Or.inr ⟨as1, Or.inl ⟨rfl, rfl⟩, h1⟩
          · simp only [List.mem_singleton] at h1
            exact Or.inl ⟨rfl, h1⟩
        · exact Or.inr ⟨as, Or.inr hmem, ha⟩
      · rintro (⟨rfl, rfl⟩ | ⟨as, hmem | hmem, ha⟩)
        · exact ⟨as1 ++ [a], Or.inl ⟨rfl, rfl⟩, List.mem_append.mpr (Or.inr (by simp))⟩
        · obtain ⟨rfl, rfl⟩ := hmem
          exact ⟨as ++ [a0], Or.inl ⟨rfl, rfl⟩, List.mem_append.mpr (Or.inl ha)⟩
        · exact ⟨as, Or.inr hmem, ha⟩
    · have hadd : add_alias ((c1, as1) :: rest) c0 a0 = (c1, as1) :: add_alias rest c0 a0 := by
        simp [add_alias, h]
      rw [hadd]
      simp only [List.mem_cons, Prod.mk.injEq]
      constructor
      · rintro ⟨as, hmem | hmem, ha⟩
        · obtain ⟨rfl, rfl⟩ := hmem
          exact Or.inr ⟨as, Or.inl ⟨rfl, rfl⟩, ha⟩
        · rcases (ih.mp ⟨as, hmem, ha⟩) with h1 | ⟨as2, h2, ha2⟩
          · exact Or.inl h1
          · exact Or.inr ⟨as2, Or.inr h2, ha2⟩
      · rintro (⟨rfl, rfl⟩ | ⟨as, hmem | hmem, ha⟩)
        · rcases (ih.mpr (Or.inl ⟨rfl, rfl⟩)) with ⟨as, hm2, ha2⟩
          exact ⟨as, Or.inr hm2, ha2⟩
        · obtain ⟨rfl, rfl⟩ := hmem
          exact ⟨as, Or.inl ⟨rfl, rfl⟩, ha⟩
        · rcases (ih.mpr (Or.inr ⟨as, hmem, ha⟩)) with ⟨as2, hm2, ha2⟩
          exact ⟨as2, Or.inr hm2, ha2⟩

/-- Grouping preserves the alias pairs exactly. -/
theorem mem_group_aliases (pairs : List (PyStr × PyStr)) (c a : PyStr) :
    (∃ as, (c, as) ∈ group_aliases pairs ∧ a ∈ as) ↔ (c, a) ∈ pairs := by
  suffices h : ∀ (m : List (PyStr × List PyStr)),
      (∃ as, (c, as) ∈ pairs.foldl (fun m p => add_alias m p.1 p.2) m ∧ a ∈ as) ↔
        ((c, a) ∈ pairs ∨ ∃ as, (c, as) ∈ m ∧ a ∈ as) by
    simpa [group_aliases] using h []
  induction pairs with
  | nil => intro m; simp
  | cons p rest ih =>
    intro m
    obtain ⟨c0, a0⟩ := p
    simp only [List.foldl_cons]
    rw [ih (add_alias m c0 a0), mem_add_alias]
    simp only [List.mem_cons, Prod.mk.injEq]
    tauto

/-- A grouped cursor absent from built_cursors is reported. -/
theorem build_links_err (m : List (PyStr × List PyStr)) (built : PyStr → Option PyStr)
    (c : PyStr) (as : List PyStr) (hm : (c, as) ∈ m) (hn : built c = none) :
    c ∈ (build_links m built).1 := by
  induction m with
  | nil => cases hm
  | cons hd rest ih =>
    obtain ⟨c1, as1⟩ := hd
    rcases List.mem_cons.mp hm with h | h
    · injection h with h1 h2
      subst h1
      subst h2
      simp [build_links, hn]
    · cases hb : built c1 <;> simp [build_links, hb, ih h]

/-- An alias of a built cursor gets its link to the stem of the stored
output path. -/
theorem build_links_link (m : List (PyStr × List PyStr)) (built : PyStr → Option PyStr)
    (c p a : PyStr) (as : List PyStr) (hm : (c, as) ∈ m) (ha : a ∈ as)
    (hp : built c = some p) :
    (a, stem p) ∈ (build_links m built).2 := by
  induction m with
  | nil => cases hm
  | cons hd rest ih =>
    obtain ⟨c1, as1⟩ := hd
    rcases List.mem_cons.mp hm with h | h
    · injection h with h1 h2
      subst h1
      subst h2
      simp only [build_links, hp]
      exact List.mem_append.mpr (Or.inl (List.mem_map_of_mem _ ha))
    · cases hb : built c1 <;>
        simp [build_links, hb, List.mem_append, ih h]

/-- Every created link belongs to an alias of some built cursor. -/
theorem build_links_fst_sub (m : List (PyStr × List PyStr)) (built : PyStr → Option PyStr)
    (a : PyStr) (h : a ∈ (build_links m built).2.map Prod.fst) :
    ∃ c1 as1 p, (c1, as1) ∈ m ∧ built c1 = some p ∧ a ∈ as1 := by
  induction m with
  | nil => cases h
  | cons hd rest ih =>
    obtain ⟨c1, as1⟩ := hd
    cases hb : built c1 with
    | none =>
      simp only [build_links, hb] at h
      obtain ⟨c2, as2, p2, hm2, hp2, ha2⟩ := ih h
      exact ⟨c2, as2, p2, List.mem_cons_of_mem _ hm2, hp2, ha2⟩
    | some p =>
      simp only [build_links, hb, List.map_append, List.mem_append] at h
      rcases h with h | h
      · simp only [List.map_map, List.mem_map] at h
        obtain ⟨a1, ha1, rfl⟩ := h
        exact ⟨c1, as1, p, List.mem_cons_self .., hb, ha1⟩
      · obtain ⟨c2, as2, p2, hm2, hp2, ha2⟩ := ih h
        exact ⟨c2, as2, p2, List.mem_cons_of_mem _ hm2, hp2, ha2⟩

/-- C9: for every alias pair of the aliases file (alias names being
distinct, as link names are), an alias whose cursor is not among the
successfully compiled ones has its cursor reported as an error and gets no
symlink, while an alias whose cursor was compiled is linked to the stem of
the stored output path; the resolver is a total function, so no alias
aborts the run. -/
theorem C9_aliases (pairs : List (PyStr × PyStr)) (built : PyStr → Option PyStr)
    (hnd : (pairs.map Prod.snd).Nodup) :
    ∀ c a, (c, a) ∈ pairs →
      (built c = none →
        c ∈ (build_links (group_aliases pairs) built).1 ∧
        a ∉ (build_links (group_aliases pairs) built).2.map Prod.fst) ∧
      (∀ p, built c = some p →
        (a, stem p) ∈ (build_links (group_aliases pairs) built).2) := by
  intro c a hca
  obtain ⟨as, hmem, ha⟩ := (mem_group_aliases pairs c a).mpr hca
  constructor
  · intro hn
    refine ⟨build_links_err _ built c as hmem hn, ?_⟩
    intro hin
    obtain ⟨c1, as1, p1, hm1, hp1, ha1⟩ := build_links_fst_sub _ built a hin
    have hca1 : (c1, a) ∈ pairs := (mem_group_aliases pairs c1 a).mp ⟨as1, hm1, ha1⟩
    have heq : (c, a) = (c1, a) := List.inj_on_of_nodup_map hnd hca hca1 rfl
    have hc : c = c1 := by
      injection heq with h1 h2
    rw [hc, hp1] at hn
    cases hn
  · intro p hp
    exact build_links_link _ built c p a as hmem ha hp

end Build

namespace Build

/-- C9 witness: with only left_ptr compiled, the alias link2 of the
unbuilt cursor missing yields a reported error and no link, while the
alias arrow of left_ptr is linked. -/
theorem C9_aliases_witness :
    ("missing".data ∈ (build_links (group_aliases pairs9) built9).1 ∧
     "link2".data ∉ (build_links (group_aliases pairs9) built9).2.map Prod.fst) ∧
    ("arrow".data, stem "dist/Numix-HIDPI/cursors/left_ptr".data) ∈
      (build_links (group_aliases pairs9) built9).2 :=
  ⟨(C9_aliases pairs9 built9 (by decide) "missing".data "link2".data (by decide)).1
      (by decide),
   (C9_aliases pairs9 built9 (by decide) "left_ptr".data "arrow".data (by decide)).2
      "dist/Numix-HIDPI/cursors/left_ptr".data (by decide)⟩

end Build


namespace Build

theorem natDigitsAux_eq (fuel : ℕ) : ∀ n, n ≤ fuel → natDigitsAux fuel n = Nat.digits 10 n := by
  induction fuel with
  | zero =>
    intro n hn
    interval_cases n
    simp [natDigitsAux, Nat.digits_zero]
  | succ fuel ih =>
    intro n hn
    by_cases h0 : n = 0
    · subst h0
      simp [natDigitsAux, Nat.digits_zero]
    · have hpos : 0 < n := Nat.pos_of_ne_zero h0
      rw [natDigitsAux, if_neg h0, Nat.digits_def' (by norm_num : 1 < 10) hpos,
        ih (n / 10) (by omega)]

theorem natDigitsLE_eq (n : ℕ) : natDigitsLE n = Nat.digits 10 n :=
  natDigitsAux_eq n n le_rfl

theorem digitChar_props : ∀ d, d < 10 →
    (Nat.digitChar d).isDigit = true ∧ (Nat.digitChar d).toNat = 48 + d ∧
    (Nat.digitChar d).isWhitespace = false ∧ Nat.digitChar d ≠ '-' := by
  decide

theorem foldl_digitFold (ds : List ℕ) (h : ∀ d ∈ ds, d < 10) : ∀ acc : ℕ,
    (ds.reverse.map Nat.digitChar).foldl digitFold (some acc) =
      some (acc * 10 ^ ds.length + Nat.ofDigits 10 ds) := by
  induction ds with
  | nil =>
    intro acc
    simp [Nat.ofDigits]
  | cons d tl ih =>
    intro acc
    have hd : d < 10 := h d (List.mem_cons_self ..)
    have htl : ∀ x ∈ tl, x < 10 := fun x hx => h x (List.mem_cons_of_mem _ hx)
    obtain ⟨hdig, htn, _, _⟩ := digitChar_props d hd
    simp only [List.reverse_cons, List.map_append, List.map_cons, List.map_nil,
      List.foldl_append, ih htl acc, List.foldl_cons, List.foldl_nil]
    simp only [digitFold, Option.bind, hdig, if_pos, htn]
    rw [Nat.ofDigits_cons]
    congr 1
    have h48 : 48 + d - 48 = d := by omega
    rw [h48]
    simp only [List.length_cons, pow_succ]
    ring

theorem parseDigits_natChars (n : ℕ) : parseDigits (natChars n) = some n := by
  by_cases h0 : n = 0
  · subst h0
    decide
  · have hdig := natDigitsLE_eq n
    have hlt : ∀ d ∈ natDigitsLE n, d < 10 := by
      rw [hdig]
      exact fun d hd => Nat.digits_lt_base (by norm_num) hd
    have hne : natDigitsLE n ≠ [] := by
      rw [hdig]
      simp [Nat.digits_ne_nil_iff_ne_zero, h0]
    have hfold := foldl_digitFold (natDigitsLE n) hlt 0
    rw [zero_mul, zero_add] at hfold
    have hval : Nat.ofDigits 10 (natDigitsLE n) = n := by
      rw [hdig]
      exact Nat.ofDigits_digits 10 n
    rw [hval] at hfold
    have hnc : natChars n = (natDigitsLE n).reverse.map Nat.digitChar := by
      simp [natChars, h0]
    rw [hnc]
    cases hds : (natDigitsLE n).reverse.map Nat.digitChar with
    | nil =>
      exfalso
      apply hne
      have hlen := congrArg List.length hds
      simp at hlen
      exact hlen
    | cons c cs =>
      rw [hds] at hfold
      simpa [parseDigits] using hfold

theorem natChars_ne_nil (n : ℕ) : natChars n ≠ [] := by
  by_cases h0 : n = 0
  · subst h0
    decide
  · have hne : natDigitsLE n ≠ [] := by
      rw [natDigitsLE_eq]
      simp [Nat.digits_ne_nil_iff_ne_zero, h0]
    simp [natChars, h0, hne]

theorem natChars_chars (n : ℕ) :
    ∀ c ∈ natChars n, c.isWhitespace = false ∧ c ≠ '-' := by
  by_cases h0 : n = 0
  · subst h0
    decide
  · have hnc : natChars n = (natDigitsLE n).reverse.map Nat.digitChar := by
      simp [natChars, h0]
    intro c hc
    rw [hnc] at hc
    obtain ⟨d, hd, rfl⟩ := List.mem_map.mp hc
    have hd2 : d ∈ natDigitsLE n := List.mem_reverse.mp hd
    have hdlt : d < 10 := by
      rw [natDigitsLE_eq] at hd2
      exact Nat.digits_lt_base (by norm_num) hd2
    obtain ⟨_, _, hws, hm⟩ := digitChar_props d hdlt
    exact ⟨hws, hm⟩

theorem pyInt?_natChars (n : ℕ) : pyInt? (natChars n) = some (n : ℤ) := by
  have hne := natChars_ne_nil n
  have hp := parseDigits_natChars n
  cases hcs : natChars n with
  | nil => exact absurd hcs hne
  | cons c rest =>
    have hcmem : c ∈ natChars n := by
      rw [hcs]
      exact List.mem_cons_self ..
    have hcm := (natChars_chars n c hcmem).2
    rw [hcs] at hp
    simp [pyInt?, hcm, hp]

theorem pyInt?_pyReprInt (i : ℤ) : pyInt? (pyReprInt i) = some i := by
  by_cases hneg : i < 0
  · have habs : (i.natAbs : ℤ) = -i := by omega
    simp only [pyReprInt, if_pos hneg]
    simp [pyInt?, parseDigits_natChars i.natAbs, habs]
  · have habs : (i.natAbs : ℤ) = i := by omega
    simp only [pyReprInt, if_neg hneg]
    rw [pyInt?_natChars, habs]

theorem pyReprInt_ne_nil (i : ℤ) : pyReprInt i ≠ [] := by
  by_cases hneg : i < 0
  · simp [pyReprInt, hneg]
  · simp only [pyReprInt, if_neg hneg]
    exact natChars_ne_nil i.natAbs

theorem pyReprInt_chars (i : ℤ) : ∀ c ∈ pyReprInt i, c.isWhitespace = false := by
  by_cases hneg : i < 0
  · simp only [pyReprInt, if_pos hneg]
    intro c hc
    rcases List.mem_cons.mp hc with rfl | hc
    · decide
    · exact (natChars_chars i.natAbs c hc).1
  · simp only [pyReprInt, if_neg hneg]
    intro c hc
    exact (natChars_chars i.natAbs c hc).1

theorem pySplitAux_nonws (t : PyStr) (h : ∀ c ∈ t, c.isWhitespace = false) :
    ∀ (acc cs : PyStr), pySplitAux acc (t ++ cs) = pySplitAux (t.reverse ++ acc) cs := by
  induction t with
  | nil =>
    intro acc cs
    simp
  | cons c t2 ih =>
    intro acc cs
    have hc : c.isWhitespace = false := h c (List.mem_cons_self ..)
    have ht2 : ∀ x ∈ t2, x.isWhitespace = false := fun x hx => h x (List.mem_cons_of_mem _ hx)
    rw [List.cons_append, pySplitAux]
    rw [hc]
    simp only [Bool.false_eq_true, if_false]
    rw [ih ht2 (c :: acc) cs]
    simp [List.append_assoc]

theorem pySplit_token_cons (t rest : PyStr) (h1 : t ≠ [])
    (h2 : ∀ c ∈ t, c.isWhitespace = false) :
    pySplit (t ++ ' ' :: rest) = t :: pySplit rest := by
  have h3 : t.reverse ≠ [] := by simpa using h1
  unfold pySplit
  rw [pySplitAux_nonws t h2 [] (' ' :: rest), List.append_nil, pySplitAux]
  rw [(by decide : (' ').isWhitespace = true)]
  simp [h3]

theorem pySplit_token_single (t : PyStr) (h1 : t ≠ [])
    (h2 : ∀ c ∈ t, c.isWhitespace = false) :
    pySplit t = [t] := by
  have h3 : t.reverse ≠ [] := by simpa using h1
  unfold pySplit
  have h4 : pySplitAux [] (t ++ []) = pySplitAux (t.reverse ++ []) [] :=
    pySplitAux_nonws t h2 [] []
  rw [List.append_nil, List.append_nil] at h4
  rw [h4, pySplitAux]
  simp [h3]

theorem pyLinesAux_nonl (t : PyStr) (h : ('\n' : Char) ∉ t) :
    ∀ (acc cs : PyStr), pyLinesAux acc (t ++ cs) = pyLinesAux (t.reverse ++ acc) cs := by
  induction t with
  | nil =>
    intro acc cs
    simp
  | cons c t2 ih =>
    intro acc cs
    have hc : c ≠ '\n' := fun hh => h (hh ▸ List.mem_cons_self ..)
    have ht2 : ('\n' : Char) ∉ t2 := fun hh => h (List.mem_cons_of_mem _ hh)
    rw [List.cons_append, pyLinesAux]
    rw [if_neg hc]
    rw [ih ht2 (c :: acc) cs]
    simp [List.append_assoc]

theorem pyLinesAux_token (t rest : PyStr) (h : ('\n' : Char) ∉ t) :
    pyLinesAux [] (t ++ '\n' :: rest) = t :: pyLinesAux [] rest := by
  rw [pyLinesAux_nonl t h [] ('\n' :: rest), List.append_nil, pyLinesAux]
  simp

theorem pyLinesAux_last (t : PyStr) (h : ('\n' : Char) ∉ t) :
    pyLinesAux [] t = [t] := by
  have h4 : pyLinesAux [] (t ++ []) = pyLinesAux (t.reverse ++ []) [] :=
    pyLinesAux_nonl t h [] []
  rw [List.append_nil, List.append_nil] at h4
  rw [h4, pyLinesAux]
  simp

theorem pyLines_join (ls : List PyStr) (hne : ls ≠ [])
    (h : ∀ l ∈ ls, ('\n' : Char) ∉ l ∧ l ≠ []) :
    pyLines (pyJoin ['\n'] ls) = ls := by
  induction ls with
  | nil => exact absurd rfl hne
  | cons l rest ih =>
    cases rest with
    | nil =>
      have hl := h l (List.mem_cons_self ..)
      rw [pyJoin, pyLines, if_neg hl.2]
      exact pyLinesAux_last l hl.1
    | cons l2 rest2 =>
      have hl := h l (List.mem_cons_self ..)
      have hl2 : l2 ∈ l2 :: rest2 := List.mem_cons_self ..
      have hrest : ∀ x ∈ l2 :: rest2, ('\n' : Char) ∉ x ∧ x ≠ [] :=
        fun x hx => h x (List.mem_cons_of_mem _ hx)
      have hjne : pyJoin ['\n'] (l2 :: rest2) ≠ [] := by
        cases rest2 with
        | nil =>
          rw [pyJoin]
          exact (hrest l2 hl2).2
        | cons l3 rest3 =>
          rw [pyJoin]
          intro hcon
          rcases List.append_eq_nil.mp hcon with ⟨h1, -⟩
          rcases List.append_eq_nil.mp h1 with ⟨-, h3⟩
          cases h3
      have hcne : l ++ '\n' :: pyJoin ['\n'] (l2 :: rest2) ≠ [] := by
        intro hcon
        rcases List.append_eq_nil.mp hcon with ⟨-, h3⟩
        cases h3
      have hjoin : pyJoin ['\n'] (l :: l2 :: rest2) =
          l ++ '\n' :: pyJoin ['\n'] (l2 :: rest2) := by
        rw [pyJoin]
        simp [List.append_assoc]
      rw [hjoin, pyLines, if_neg hcne, pyLinesAux_token _ _ hl.1]
      have hrec := ih (by simp) hrest
      rw [pyLines, if_neg hjne] at hrec
      rw [hrec]

theorem pySplit_build_cursor_line (f : ExpandedFrame) (h1 : f.out ≠ [])
    (h2 : ∀ c ∈ f.out, c.isWhitespace = false) :
    pySplit (build_cursor_line f) =
      [pyReprInt f.scaledSize, pyReprInt f.scaledX, pyReprInt f.scaledY, f.out] ++
        (if f.delay ≠ 0 then [pyReprInt f.delay] else []) := by
  by_cases hd : f.delay = 0
  · have hline : build_cursor_line f =
        pyReprInt f.scaledSize ++ ' ' :: (pyReprInt f.scaledX ++ ' ' ::
          (pyReprInt f.scaledY ++ ' ' :: f.out)) := by
      simp [build_cursor_line, hd, List.append_assoc]
    rw [hline,
      pySplit_token_cons _ _ (pyReprInt_ne_nil _) (pyReprInt_chars _),
      pySplit_token_cons _ _ (pyReprInt_ne_nil _) (pyReprInt_chars _),
      pySplit_token_cons _ _ (pyReprInt_ne_nil _) (pyReprInt_chars _),
      pySplit_token_single _ h1 h2]
    simp [hd]
  · have hline : build_cursor_line f =
        pyReprInt f.scaledSize ++ ' ' :: (pyReprInt f.scaledX ++ ' ' ::
          (pyReprInt f.scaledY ++ ' ' :: (f.out ++ ' ' :: pyReprInt f.delay))) := by
      simp [build_cursor_line, hd, List.append_assoc]
    rw [hline,
      pySplit_token_cons _ _ (pyReprInt_ne_nil _) (pyReprInt_chars _),
      pySplit_token_cons _ _ (pyReprInt_ne_nil _) (pyReprInt_chars _),
      pySplit_token_cons _ _ (pyReprInt_ne_nil _) (pyReprInt_chars _),
      pySplit_token_cons _ _ h1 h2,
      pySplit_token_single _ (pyReprInt_ne_nil _) (pyReprInt_chars _)]
    simp [hd]

theorem parse_line_build (f : ExpandedFrame) (h1 : f.out ≠ [])
    (h2 : ∀ c ∈ f.out, c.isWhitespace = false) :
    parse_line (build_cursor_line f) =
      .ok ⟨f.scaledSize, f.scaledX, f.scaledY, f.out, f.delay⟩ := by
  have hs := pySplit_build_cursor_line f h1 h2
  by_cases hd : f.delay = 0
  · rw [if_neg (by simp [hd])] at hs
    rw [parse_line, hs]
    simp [pyInt?_pyReprInt, hd]
  · rw [if_pos hd] at hs
    rw [parse_line, hs]
    simp [pyInt?_pyReprInt]

theorem line_ok_parse (l : PyStr) (h : line_ok l = true) :
    ∃ r, parse_line l = .ok r ∧ ((pySplit l).length = 4 → r.delay = 0) := by
  unfold line_ok at h
  split at h
  · next s x y n heq =>
    simp only [Bool.and_eq_true, Option.isSome_iff_exists] at h
    obtain ⟨⟨⟨si, hsi⟩, xi, hxi⟩, yi, hyi⟩ := h
    refine ⟨⟨si, xi, yi, n, 0⟩, ?_, fun _ => rfl⟩
    simp [parse_line, heq, hsi, hxi, hyi]
  · next s x y n d heq =>
    simp only [Bool.and_eq_true, Option.isSome_iff_exists] at h
    obtain ⟨⟨⟨⟨si, hsi⟩, xi, hxi⟩, yi, hyi⟩, di, hdi⟩ := h
    refine ⟨⟨si, xi, yi, n, di⟩, ?_, ?_⟩
    · simp [parse_line, heq, hsi, hxi, hyi, hdi]
    · intro hlen
      rw [heq] at hlen
      simp at hlen
  · cases h

theorem parse_line_bad (l : PyStr) (h4 : (pySplit l).length ≠ 4)
    (h5 : (pySplit l).length ≠ 5) : parse_line l = .error .valueError := by
  unfold parse_line
  split
  · next s x y n heq =>
    rw [heq] at h4
    simp at h4
  · next s x y n d heq =>
    rw [heq] at h5
    simp at h5
  · rfl

theorem parse_line_err_val (l : PyStr) (e : PyErr) (h : parse_line l = .error e) :
    e = .valueError := by
  unfold parse_line at h
  split at h
  · split at h
    · cases h
    · cases h
      rfl
  · split at h
    · cases h
    · cases h
      rfl
  · cases h
    rfl

theorem load_cursor_ok (lines : List PyStr) (h : ∀ l ∈ lines, line_ok l = true) :
    ∃ rs, load_cursor lines = .ok rs ∧ rs.length = lines.length ∧
      ∀ (i : ℕ) (hi : i < lines.length) (hr : i < rs.length),
        parse_line (lines.get ⟨i, hi⟩) = .ok (rs.get ⟨i, hr⟩) ∧
        ((pySplit (lines.get ⟨i, hi⟩)).length = 4 → (rs.get ⟨i, hr⟩).delay = 0) := by
  induction lines with
  | nil => exact ⟨[], rfl, rfl, fun i hi => absurd hi (by simp)⟩
  | cons l ls ih =>
    obtain ⟨r, hr, hrd⟩ := line_ok_parse l (h l (List.mem_cons_self ..))
    obtain ⟨rs, hrs, hlen, hidx⟩ := ih (fun x hx => h x (List.mem_cons_of_mem _ hx))
    refine ⟨r :: rs, ?_, by simp [hlen], ?_⟩
    · rw [load_cursor, hr, hrs]
    · intro i hi hri
      cases i with
      | zero => exact ⟨hr, hrd⟩
      | succ j =>
        have hj : j < ls.length := by simpa using hi
        have hjr : j < rs.length := by simpa using hri
        simpa using hidx j hj hjr

theorem load_cursor_badline (lines : List PyStr) (l : PyStr) (hl : l ∈ lines)
    (h4 : (pySplit l).length ≠ 4) (h5 : (pySplit l).length ≠ 5) :
    load_cursor lines = .error .valueError := by
  induction lines with
  | nil => cases hl
  | cons l0 ls ih =>
    rcases List.mem_cons.mp hl with rfl | hmem
    · rw [load_cursor, parse_line_bad l h4 h5]
    · cases hp : parse_line l0 with
      | error e =>
        rw [load_cursor, hp, parse_line_err_val l0 e hp]
      | ok r =>
        rw [load_cursor, hp, ih hmem]

theorem build_cursor_line_ne_nil (f : ExpandedFrame) : build_cursor_line f ≠ [] := by
  unfold build_cursor_line
  by_cases hd : f.delay ≠ 0 <;> simp [hd]

theorem build_cursor_line_no_nl (f : ExpandedFrame)
    (h2 : ∀ c ∈ f.out, c.isWhitespace = false) :
    ('\n' : Char) ∉ build_cursor_line f := by
  intro hm
  have hr1 := pyReprInt_chars f.scaledSize
  have hr2 := pyReprInt_chars f.scaledX
  have hr3 := pyReprInt_chars f.scaledY
  have hr4 := pyReprInt_chars f.delay
  by_cases hd : f.delay = 0
  · have hline : build_cursor_line f =
        pyReprInt f.scaledSize ++ ' ' :: (pyReprInt f.scaledX ++ ' ' ::
          (pyReprInt f.scaledY ++ ' ' :: f.out)) := by
      simp [build_cursor_line, hd, List.append_assoc]
    rw [hline] at hm
    simp only [List.mem_append, List.mem_cons] at hm
    rcases hm with hm | hm | hm | hm | hm | hm | hm
    · exact absurd (hr1 _ hm) (by decide)
    · exact absurd hm (by decide)
    · exact absurd (hr2 _ hm) (by decide)
    · exact absurd hm (by decide)
    · exact absurd (hr3 _ hm) (by decide)
    · exact absurd hm (by decide)
    · exact absurd (h2 _ hm) (by decide)
  · have hline : build_cursor_line f =
        pyReprInt f.scaledSize ++ ' ' :: (pyReprInt f.scaledX ++ ' ' ::
          (pyReprInt f.scaledY ++ ' ' :: (f.out ++ ' ' :: pyReprInt f.delay))) := by
      simp [build_cursor_line, hd, List.append_assoc]
    rw [hline] at hm
    simp only [List.mem_append, List.mem_cons] at hm
    rcases hm with hm | hm | hm | hm | hm | hm | hm | hm | hm
    · exact absurd (hr1 _ hm) (by decide)
    · exact absurd hm (by decide)
    · exact absurd (hr2 _ hm) (by decide)
    · exact absurd hm (by decide)
    · exact absurd (hr3 _ hm) (by decide)
    · exact absurd hm (by decide)
    · exact absurd (h2 _ hm) (by decide)
    · exact absurd hm (by decide)
    · exact absurd (hr4 _ hm) (by decide)

theorem load_cursor_map (fs : List ExpandedFrame)
    (h : ∀ f ∈ fs, f.out ≠ [] ∧ ∀ c ∈ f.out, c.isWhitespace = false) :
    load_cursor (fs.map build_cursor_line) =
      .ok (fs.map fun f => (⟨f.scaledSize, f.scaledX, f.scaledY, f.out, f.delay⟩ : FrameRec)) := by
  induction fs with
  | nil => rfl
  | cons f fs2 ih =>
    obtain ⟨h1, h2⟩ := h f (List.mem_cons_self ..)
    rw [List.map_cons, load_cursor, parse_line_build f h1 h2, List.map_cons,
      ih (fun x hx => h x (List.mem_cons_of_mem _ hx))]

/-- C7: serialization and parsing of descriptor lines round-trip.  For
every frame list whose output-path fields are nonempty and
whitespace-free, each serialized line splits into the fields scaled size,
scaled hot x, scaled hot y and the bitmap path, with the delay field
present exactly when the delay is nonzero; the file is the newline-join of
the lines with no header or footer, and feeding its lines back through the
loader recovers every (size, hotX, hotY, name, delay) tuple in order, an
absent delay field parsing back to 0. -/
theorem C7_descriptor_roundtrip (fs : List ExpandedFrame)
    (h : ∀ f ∈ fs, f.out ≠ [] ∧ ∀ c ∈ f.out, c.isWhitespace = false) :
    (∀ f ∈ fs, pySplit (build_cursor_line f) =
      [pyReprInt f.scaledSize, pyReprInt f.scaledX, pyReprInt f.scaledY, f.out] ++
        (if f.delay ≠ 0 then [pyReprInt f.delay] else [])) ∧
    load_cursor (pyLines (write_cursor_file fs)) =
      .ok (fs.map fun f => (⟨f.scaledSize, f.scaledX, f.scaledY, f.out, f.delay⟩ : FrameRec)) := by
  constructor
  · intro f hf
    exact pySplit_build_cursor_line f (h f hf).1 (h f hf).2
  · have hlines : pyLines (write_cursor_file fs) = fs.map build_cursor_line := by
      cases hfs : fs with
      | nil => rfl
      | cons f fs2 =>
        rw [← hfs, write_cursor_file, (rfl : ("\n".data : PyStr) = ['\n'])]
        apply pyLines_join
        · simp [hfs]
        · intro l hl
          obtain ⟨g, hg, rfl⟩ := List.mem_map.mp hl
          exact ⟨build_cursor_line_no_nl g (h g hg).2, build_cursor_line_ne_nil g⟩
    rw [hlines, load_cursor_map fs h]

end Build

namespace Build

/-- C6: a descriptor whose lines all have 4 or 5 whitespace-separated
fields with parseable numeric fields loads to exactly one record per line
in file order, a 4-field line yielding delay 0; and a descriptor
containing any line with a different field count makes the loader fail
instead of producing a partial result. -/
theorem C6_loader (lines : List PyStr) :
    ((∀ l ∈ lines, line_ok l = true) →
      ∃ rs, load_cursor lines = .ok rs ∧ rs.length = lines.length ∧
        ∀ (i : ℕ) (hi : i < lines.length) (hr : i < rs.length),
          parse_line (lines.get ⟨i, hi⟩) = .ok (rs.get ⟨i, hr⟩) ∧
          ((pySplit (lines.get ⟨i, hi⟩)).length = 4 → (rs.get ⟨i, hr⟩).delay = 0)) ∧
    ((∃ l ∈ lines, (pySplit l).length ≠ 4 ∧ (pySplit l).length ≠ 5) →
      ∀ rs, load_cursor lines ≠ .ok rs) := by
  constructor
  · exact load_cursor_ok lines
  · rintro ⟨l, hl, h4, h5⟩ rs hok
    rw [load_cursor_badline lines l hl h4 h5] at hok
    cases hok

/-- C6 witness: the loader accepts the two good example lines and rejects
the 3-field example line. -/
theorem C6_loader_witness :
    load_cursor linesGood ≠ .error PyErr.valueError ∧
    load_cursor linesBad ≠ .ok [] := by
  constructor
  · obtain ⟨rs, hok, -, -⟩ := (C6_loader linesGood).1 (by decide)
    rw [hok]
    intro hcon
    cases hcon
  · exact (C6_loader linesBad).2 ⟨"24 2 2".data, by decide, by decide, by decide⟩ []

/-- C7 witness: the example frame with delay 50 serializes to a 5-field
line, and loading the written two-frame descriptor recovers both tuples. -/
theorem C7_descriptor_roundtrip_witness :
    pySplit (build_cursor_line frameDelay) =
      [pyReprInt frameDelay.scaledSize, pyReprInt frameDelay.scaledX,
       pyReprInt frameDelay.scaledY, frameDelay.out] ++
        (if frameDelay.delay ≠ 0 then [pyReprInt frameDelay.delay] else []) ∧
    load_cursor (pyLines (write_cursor_file framesW)) =
      .ok (framesW.map fun f =>
        (⟨f.scaledSize, f.scaledX, f.scaledY, f.out, f.delay⟩ : FrameRec)) :=
  ⟨(C7_descriptor_roundtrip framesW (by decide)).1 frameDelay (by decide),
   (C7_descriptor_roundtrip framesW (by decide)).2⟩

/-- C10: a descriptor containing an empty or whitespace-only line (zero
fields after splitting) makes the loader raise ValueError, aborting the
run: blank lines are not skipped or tolerated. -/
theorem C10_blank_line (lines : List PyStr) (l : PyStr) (hl : l ∈ lines)
    (hblank : pySplit l = []) : load_cursor lines = .error .valueError :=
  load_cursor_badline lines l hl (by simp [hblank]) (by simp [hblank])

/-- C10 witness: a descriptor consisting of one whitespace-only line
raises ValueError. -/
theorem C10_blank_line_witness :
    load_cursor [" ".data] = Except.error PyErr.valueError :=
  C10_blank_line [" ".data] " ".data (by decide) (by decide)

end Build
